import Mathlib

/-!
# Verification of `c10k::detail::RoundRobinPool`

Source: `src/c10k/round_robin_pool.hpp`.

The pool is a class template over a runner type `RunnerT`.  The embedding keeps
the pool generic: the runner is a record of the operations the template uses
(`RunnerT`), and the pool's data members become the fields of a structure that
is passed explicitly from call to call.  Every call the pool makes on a runner
or on a `std::thread` is also appended to a history (`calls`), so that "which
runner was called, in which order, how often" can be stated.

C++ `int` values are integers wrapped to 32 bits (`toInt32`); the `%` operator
is C++ truncating remainder (`intRem`); undefined behaviour (division by zero,
an index outside the vector) is the result `none`.

The `logger->...` statements only write to the logging sink and never feed back
into the pool; they are left out of the state.

What the embedding takes from the C++ standard library: `std::size_t` has 64
bits; `reserve(n)` throws `std::length_error` when `n > max_size()`; the
destructor of a joinable `std::thread` calls `std::terminate`; `t.join()`
returns when the thread's function has returned.  The methods `stop` and
`add_new_connection` of a runner and the start of a thread are taken to return
normally; only the constructor of a runner may throw.
-/

namespace c10k
namespace detail

/-! ## C++ integers -/

/-- Smallest value of a C++ `int` (32 bits, two's complement). -/
def INT_MIN : Int := -2147483648

/-- Largest value of a C++ `int`. -/
def INT_MAX : Int := 2147483647

/-- Value held by an `int` after storing `x` in it: wrap-around to 32 bits.
This is the result of `std::atomic_int` arithmetic and of the conversion of a
`size_t` to `int`. -/
def toInt32 (x : Int) : Int := (2147483648 + x) % 4294967296 - 2147483648

/-- Conversion of an `int` to `std::size_t` (64 bits): reduction modulo `2^64`.
It happens when an `int` is passed to `reserve` or to `operator[]`. -/
def toSizeT (x : Int) : Nat := (x % 18446744073709551616).toNat

/-- Value of `std::vector<T>::max_size()` for the two vectors of the pool, whose
elements (`std::unique_ptr<RunnerT>`, `std::thread`) are 8 bytes wide:
`PTRDIFF_MAX / 8`. -/
def vectorMaxSize : Nat := 1152921504606846975

/-- C++ `a % b` on `int`: the remainder of the division truncated towards zero,
which has the sign of `a`.  Undefined (`none`) when `b` is zero and when the
quotient `INT_MIN / -1` is not representable. -/
def intRem (a b : Int) : Option Int :=
  if b = 0 then none
  else if a = INT_MIN ∧ b = -1 then none
  else some (Int.tmod a b)

/-! ## Runner, thread, pool -/

/-- The operations `RoundRobinPool` requires of its template parameter
(source lines 17-27), over a runner state `σ`. -/
structure RunnerT (σ : Type) where
  /-- Constructor `RunnerT(int max_event, const Logger &logger)`.  The second
  argument is the number of runners built before this one: it stands for the
  environment the constructor runs in.  `none` means the constructor throws. -/
  make : Int → Nat → Option σ
  /-- Method `void stop()`. -/
  stop : σ → σ
  /-- Method `void add_new_connection(int fd)`. -/
  add_new_connection : Int → σ → σ
  /-- Whether the call `runner()` that a worker thread executes returns when the
  runner is in the given state. -/
  returns : σ → Bool

/-- State of one `std::thread` of the vector `threads`. -/
inductive Thread where
  /-- The thread executes its runner. -/
  | running
  /-- The runner call has returned; the thread has not been joined. -/
  | finished
  /-- The thread has been joined. -/
  | joined
  deriving DecidableEq

/-- Method `std::thread::joinable()`. -/
def Thread.joinable : Thread → Bool
  | Thread.joined => false
  | _ => true

/-- A call made by the pool on one of its runners or threads; `i` is the index
in `workers` / `threads`. -/
inductive Call where
  /-- The call `std::make_unique<RunnerT>(...)` that built `workers[i]`. -/
  | construct (i : Nat)
  /-- The call `threads.emplace_back(std::ref(*workers[i]))`. -/
  | spawn (i : Nat)
  /-- The call `workers[i]->add_new_connection(fd)`. -/
  | add_new_connection (i : Nat) (fd : Int)
  /-- The call `workers[i]->stop()`. -/
  | stop (i : Nat)
  /-- The call `threads[i].join()`. -/
  | join (i : Nat)
  deriving DecidableEq

/-- Data members of `RoundRobinPool` (source lines 30-34), with the history of
calls made so far. -/
structure RoundRobinPool (σ : Type) where
  threads : List Thread
  workers : List σ
  round_robin : Int
  max_event_per_loop : Int
  calls : List Call
  deriving DecidableEq

/-- How the constructor ends. -/
inductive Constructed (σ : Type) where
  /-- The constructor returns the pool. -/
  | pool (p : RoundRobinPool σ)
  /-- The call `reserve` throws `std::length_error`; members are still empty. -/
  | length_error
  /-- The constructor of runner `i` throws and the exception leaves the pool
  constructor; `p` holds the members at the time of the throw. -/
  | runner_error (i : Nat) (p : RoundRobinPool σ)
  /-- The constructor of runner `i` throws, and unwinding destroys the vector
  `threads` while it holds a joinable `std::thread`: the destructor of
  `std::thread` calls `std::terminate`.  `p` holds the members at the time of
  the throw. -/
  | terminated (i : Nat) (p : RoundRobinPool σ)
  deriving DecidableEq

/-! ## Operations -/

/-- The loop `for (int i=0; i<thread_num; ++i)` of the constructor (source lines
46-50): `n` iterations remain, `i` is the loop variable. -/
def constructLoop {σ : Type} (R : RunnerT σ) :
    Nat → Nat → RoundRobinPool σ → Constructed σ
  | 0, _, p => Constructed.pool p
  | n + 1, i, p =>
    match R.make p.max_event_per_loop i with
    | none =>
      if p.threads.any Thread.joinable then Constructed.terminated i p
      else Constructed.runner_error i p
    | some r =>
      constructLoop R n (i + 1)
        { p with
          workers := p.workers ++ [r]
          threads := p.threads ++ [Thread.running]
          calls := p.calls ++ [Call.construct i, Call.spawn i] }

/-- Constructor `RoundRobinPool(int thread_num, int max_event_per_loop, logger)`
(source lines 38-51).  `reserve(thread_num)` converts the `int` to `size_t` and
throws when the result exceeds `max_size()`. -/
def RoundRobinPool.new {σ : Type} (R : RunnerT σ)
    (thread_num max_event_per_loop : Int) : Constructed σ :=
  if vectorMaxSize < toSizeT thread_num then Constructed.length_error
  else
    constructLoop R thread_num.toNat 0
      { threads := []
        workers := []
        round_robin := 0
        max_event_per_loop := max_event_per_loop
        calls := [] }

/-- Method `int getThreadNum() const` (source lines 53-56): `threads.size()`
converted to `int`. -/
def getThreadNum {σ : Type} (p : RoundRobinPool σ) : Int :=
  toInt32 p.threads.length

/-- Method `void addConnection(int fd)` (source lines 59-64).  `none` is
undefined behaviour: `cnt % getThreadNum()` with a zero divisor, or
`workers[...]` with an index outside the vector. -/
def addConnection {σ : Type} (R : RunnerT σ) (p : RoundRobinPool σ) (fd : Int) :
    Option (RoundRobinPool σ) :=
  let cnt := p.round_robin
  match intRem cnt (getThreadNum p) with
  | none => none
  | some idx =>
    match p.workers[toSizeT idx]? with
    | none => none
    | some w =>
      some
        { p with
          round_robin := toInt32 (cnt + 1)
          workers := p.workers.set (toSizeT idx) (R.add_new_connection fd w)
          calls := p.calls ++ [Call.add_new_connection (toSizeT idx) fd] }

/-- The `std::for_each` of `stopAll` from position `i` on: the runners after the
calls, and the calls made. -/
def stopEach {σ : Type} (R : RunnerT σ) : Nat → List σ → List σ × List Call
  | _, [] => ([], [])
  | i, w :: ws =>
    let rest := stopEach R (i + 1) ws
    (R.stop w :: rest.1, Call.stop i :: rest.2)

/-- Method `void stopAll()` (source lines 67-73). -/
def stopAll {σ : Type} (R : RunnerT σ) (p : RoundRobinPool σ) : RoundRobinPool σ :=
  let r := stopEach R 0 p.workers
  { p with workers := r.1, calls := p.calls ++ r.2 }

/-- The `std::for_each` of `join` from position `i` on.  `t.join()` on a running
thread returns only if the call of its runner `workers[i]` returns; `none`
means that `join` blocks forever. -/
def joinEach {σ : Type} (R : RunnerT σ) (workers : List σ) :
    Nat → List Thread → Option (List Thread × List Call)
  | _, [] => some ([], [])
  | i, t :: ts =>
    if t.joinable then
      if t = Thread.finished ∨ (workers[i]?).map R.returns = some true then
        (joinEach R workers (i + 1) ts).map
          fun rest => (Thread.joined :: rest.1, Call.join i :: rest.2)
      else none
    else
      (joinEach R workers (i + 1) ts).map fun rest => (t :: rest.1, rest.2)

/-- Method `void join()` (source lines 75-83). -/
def join {σ : Type} (R : RunnerT σ) (p : RoundRobinPool σ) :
    Option (RoundRobinPool σ) :=
  (joinEach R p.workers 0 p.threads).map
    fun r => { p with threads := r.1, calls := p.calls ++ r.2 }

/-! ## Sequences of calls, reachable states -/

/-- The calls `addConnection(fd)` for the descriptors of a list, one after
another. -/
def addConnections {σ : Type} (R : RunnerT σ) :
    RoundRobinPool σ → List Int → Option (RoundRobinPool σ)
  | p, [] => some p
  | p, fd :: fds => (addConnection R p fd).bind fun q => addConnections R q fds

/-- States the pool takes after construction, under any sequence of calls of
`addConnection`, `stopAll` and `join` that return. -/
inductive Reachable {σ : Type} (R : RunnerT σ) (p0 : RoundRobinPool σ) :
    RoundRobinPool σ → Prop where
  | init : Reachable R p0 p0
  | addConnection {p q : RoundRobinPool σ} (fd : Int) :
      Reachable R p0 p → c10k.detail.addConnection R p fd = some q → Reachable R p0 q
  | stopAll {p : RoundRobinPool σ} :
      Reachable R p0 p → Reachable R p0 (c10k.detail.stopAll R p)
  | join {p q : RoundRobinPool σ} :
      Reachable R p0 p → c10k.detail.join R p = some q → Reachable R p0 q

/-- Number of `add_new_connection` calls that runner `i` received in a
history. -/
def received (i : Nat) (calls : List Call) : Nat :=
  calls.countP fun c =>
    match c with
    | Call.add_new_connection j _ => j == i
    | _ => false

/-- Number of `add_new_connection` calls in a history, whatever the runner. -/
def delivered (calls : List Call) : Nat :=
  calls.countP fun c =>
    match c with
    | Call.add_new_connection _ _ => true
    | _ => false

/-! ## A recording runner -/

/-- Runner that records what the pool does to it: the descriptors received, in
order, and the number of `stop()` calls. -/
structure MockRunner where
  max_event : Int
  fds : List Int
  stops : Nat
  deriving DecidableEq

/-- The recording runner as a `RunnerT`.  Construction number `i` throws when
`failAt i` holds; the runner call returns once `stop()` has been called. -/
def mockRunner (failAt : Nat → Bool) : RunnerT MockRunner where
  make := fun me i => if failAt i then none else some ⟨me, [], 0⟩
  stop := fun r => { r with stops := r.stops + 1 }
  add_new_connection := fun fd r => { r with fds := r.fds ++ [fd] }
  returns := fun r => decide (0 < r.stops)

/-- The recording runner whose construction never fails. -/
def okRunner : RunnerT MockRunner := mockRunner fun _ => false

/-- The recording runner whose second construction (number 1) fails. -/
def secondFails : RunnerT MockRunner := mockRunner fun i => i == 1

/-- The pool that `RoundRobinPool(n, 64, logger)` returns for recording
runners. -/
def freshPool (n : Nat) : RoundRobinPool MockRunner :=
  { threads := List.replicate n Thread.running
    workers := List.replicate n ⟨64, [], 0⟩
    round_robin := 0
    max_event_per_loop := 64
    calls := (List.range n).flatMap fun i => [Call.construct i, Call.spawn i] }

/-- A pool of three stopped recording runners whose threads are in the three
possible states. -/
def stoppedPool : RoundRobinPool MockRunner :=
  { threads := [Thread.running, Thread.finished, Thread.joined]
    workers := List.replicate 3 ⟨64, [], 1⟩
    round_robin := 4
    max_event_per_loop := 64
    calls := [] }

/-- A pool of three recording runners whose counter holds `INT_MIN`, the value
it takes after `2^31` calls of `addConnection`. -/
def wrappedPool : RoundRobinPool MockRunner :=
  { freshPool 3 with round_robin := INT_MIN }

/-! ## Round robin, as the specification words it -/

/-- The calls `add_new_connection` that a round robin over `n` runners makes for
a list of descriptors when the first of them has sequence number `c`. -/
def routed (n : Nat) : Nat → List Int → List Call
  | _, [] => []
  | c, fd :: fds => Call.add_new_connection (c % n) fd :: routed n (c + 1) fds

/-- Number of sequence numbers `k` with `c ≤ k < c + len` and `k % n = i`. -/
def slots (n i : Nat) : Nat → Nat → Nat
  | _, 0 => 0
  | c, len + 1 => (if c % n = i then 1 else 0) + slots n i (c + 1) len

/-! # Theorems -/

/-! ## Integer facts -/

theorem toInt32_of_range {x : Int} (h1 : INT_MIN ≤ x) (h2 : x ≤ INT_MAX) :
    toInt32 x = x := by
  unfold INT_MIN at h1
  unfold INT_MAX at h2
  unfold toInt32
  omega

theorem toSizeT_natCast {c : Nat} (h : (c : Int) ≤ INT_MAX) : toSizeT (c : Int) = c := by
  unfold INT_MAX at h
  unfold toSizeT
  omega

theorem intRem_natCast {c n : Nat} (hn : 0 < n) :
    intRem (c : Int) (n : Int) = some ((c % n : Nat) : Int) := by
  have h0 : ¬ ((n : Int) = 0) := by omega
  have h1 : ¬ ((c : Int) = INT_MIN ∧ (n : Int) = -1) := by
    intro h
    omega
  unfold intRem
  rw [if_neg h0, if_neg h1, Int.tmod_eq_emod (by omega) (by omega), Int.natCast_mod]

/-! ## Construction -/

theorem constructLoop_pool {σ : Type} (R : RunnerT σ) :
    ∀ (n i : Nat) (p q : RoundRobinPool σ), constructLoop R n i p = Constructed.pool q →
      q.workers.length = p.workers.length + n ∧
      q.threads = p.threads ++ List.replicate n Thread.running ∧
      q.round_robin = p.round_robin ∧
      q.max_event_per_loop = p.max_event_per_loop ∧
      (∀ j, received j q.calls = received j p.calls) ∧
      delivered q.calls = delivered p.calls := by
  intro n
  induction n with
  | zero =>
    intro i p q h
    simp only [constructLoop, Constructed.pool.injEq] at h
    subst h
    simp
  | succ n ih =>
    intro i p q h
    simp only [constructLoop] at h
    cases hm : R.make p.max_event_per_loop i with
    | none =>
      rw [hm] at h
      simp only at h
      split at h <;> cases h
    | some r =>
      rw [hm] at h
      simp only at h
      obtain ⟨h1, h2, h3, h4, h5, h6⟩ := ih _ _ _ h
      refine ⟨?_, ?_, h3, h4, ?_, ?_⟩
      · rw [h1]
        simp
        omega
      · rw [h2]
        simp [List.replicate_succ]
      · intro j
        rw [h5]
        simp [received, List.countP_append, List.countP_cons]
      · rw [h6]
        simp [delivered, List.countP_append, List.countP_cons]

/-- What a successful construction with `1 ≤ thread_num` establishes. -/
theorem new_pool {σ : Type} (R : RunnerT σ) (thread_num me : Int)
    (p0 : RoundRobinPool σ) (h : RoundRobinPool.new R thread_num me = Constructed.pool p0) :
    p0.workers.length = thread_num.toNat ∧
    p0.threads = List.replicate thread_num.toNat Thread.running ∧
    p0.round_robin = 0 ∧ p0.max_event_per_loop = me ∧
    (∀ j, received j p0.calls = 0) ∧ delivered p0.calls = 0 := by
  unfold RoundRobinPool.new at h
  split at h
  · cases h
  · obtain ⟨h1, h2, h3, h4, h5, h6⟩ := constructLoop_pool R _ _ _ _ h
    refine ⟨by simpa using h1, by simpa using h2, h3, h4, ?_, ?_⟩
    · intro j
      rw [h5]
      simp [received]
    · rw [h6]
      simp [delivered]

/-! ## One `addConnection` call -/

/-- The call on a pool whose two vectors have `n ≥ 1` elements and whose counter
holds `c ≥ 0`: it is defined and targets runner `c % n`. -/
theorem addConnection_eq {σ : Type} (R : RunnerT σ) (p : RoundRobinPool σ) (fd : Int)
    (n c : Nat) (hn : 0 < n) (hn2 : (n : Int) ≤ INT_MAX)
    (hw : p.workers.length = n) (ht : p.threads.length = n)
    (hc : p.round_robin = (c : Int)) (hc2 : (c : Int) ≤ INT_MAX) :
    ∃ w, p.workers[c % n]? = some w ∧
      addConnection R p fd = some
        { p with
          round_robin := toInt32 ((c : Int) + 1)
          workers := p.workers.set (c % n) (R.add_new_connection fd w)
          calls := p.calls ++ [Call.add_new_connection (c % n) fd] } := by
  have hlt : c % n < p.workers.length := by
    rw [hw]
    exact Nat.mod_lt _ hn
  have hg : getThreadNum p = (n : Int) := by
    unfold getThreadNum
    rw [ht]
    exact toInt32_of_range (by unfold INT_MIN; omega) hn2
  have hidx : toSizeT ((c % n : Nat) : Int) = c % n := by
    apply toSizeT_natCast
    have := Nat.mod_le c n
    unfold INT_MAX at hc2 ⊢
    omega
  refine ⟨p.workers[c % n], List.getElem?_eq_getElem hlt, ?_⟩
  unfold addConnection
  dsimp only
  rewrite [hg, hc, intRem_natCast hn]
  dsimp only
  rewrite [hidx, List.getElem?_eq_getElem hlt]
  rfl

/-! ## Sequences of `addConnection` calls -/

theorem addConnections_append {σ : Type} (R : RunnerT σ) :
    ∀ (xs ys : List Int) (p : RoundRobinPool σ),
      addConnections R p (xs ++ ys) =
        (addConnections R p xs).bind fun q => addConnections R q ys := by
  intro xs
  induction xs with
  | nil =>
    intro ys p
    simp [addConnections]
  | cons x xs ih =>
    intro ys p
    simp only [List.cons_append, addConnections]
    cases addConnection R p x with
    | none => rfl
    | some q => simp [ih]

/-- A sequence of calls that starts with counter `c` and ends at or before the
wrap point is defined, keeps the vectors' sizes and routes by sequence
number. -/
theorem addConnections_eq {σ : Type} (R : RunnerT σ) (n : Nat) (hn : 0 < n)
    (hn2 : (n : Int) ≤ INT_MAX) :
    ∀ (fds : List Int) (p : RoundRobinPool σ) (c : Nat),
      p.workers.length = n → p.threads.length = n →
      p.round_robin = toInt32 (c : Int) →
      c + fds.length ≤ 2147483648 →
      ∃ q, addConnections R p fds = some q ∧
        q.round_robin = toInt32 ((c + fds.length : Nat) : Int) ∧
        q.workers.length = n ∧ q.threads = p.threads ∧
        q.max_event_per_loop = p.max_event_per_loop ∧
        q.calls = p.calls ++ routed n c fds := by
  intro fds
  induction fds with
  | nil =>
    intro p c hw _ hc _
    exact ⟨p, rfl, by simpa using hc, hw, rfl, rfl, by simp [routed]⟩
  | cons fd fds ih =>
    intro p c hw ht hc hb
    simp only [List.length_cons] at hb
    have hc2 : (c : Int) ≤ INT_MAX := by
      unfold INT_MAX
      omega
    have hc3 : p.round_robin = (c : Int) := by
      rw [hc]
      exact toInt32_of_range (by unfold INT_MIN; omega) hc2
    obtain ⟨w, _, hadd⟩ := addConnection_eq R p fd n c hn hn2 hw ht hc3 hc2
    obtain ⟨q, h1, h2, h3, h4, h5, h6⟩ :=
      ih { p with
           round_robin := toInt32 ((c : Int) + 1)
           workers := p.workers.set (c % n) (R.add_new_connection fd w)
           calls := p.calls ++ [Call.add_new_connection (c % n) fd] }
        (c + 1) (by simpa using hw) ht (by simp) (by omega)
    refine ⟨q, ?_, ?_, h3, h4, h5, ?_⟩
    · simp only [addConnections, hadd, Option.some_bind]
      exact h1
    · rw [h2]
      congr 2
      simp only [List.length_cons]
      omega
    · rw [h6]
      simp [routed]

theorem toInt32_zero : toInt32 0 = 0 := by decide

/-- The state after a successful construction with `N` threads, in the form the
lemmas on `addConnection` use. -/
theorem new_pool_nat {σ : Type} (R : RunnerT σ) (N : Nat) (me : Int)
    (p0 : RoundRobinPool σ)
    (h : RoundRobinPool.new R (N : Int) me = Constructed.pool p0) :
    p0.workers.length = N ∧ p0.threads.length = N ∧
    p0.round_robin = toInt32 ((0 : Nat) : Int) ∧
    (∀ i, received i p0.calls = 0) ∧ delivered p0.calls = 0 := by
  obtain ⟨h1, h2, h3, _, h5, h6⟩ := new_pool R _ _ _ h
  refine ⟨by simpa using h1, ?_, ?_, h5, h6⟩
  · rw [h2]
    simp
  · rw [h3]
    exact toInt32_zero.symm

/-- C1 (round-robin routing).  On a pool constructed with `N ≥ 1` threads, in a
sequence of at most `2^31` calls of `addConnection` made one after another, the
call number `k` (counted from 0) is defined, finds the counter at `k`, and
passes its descriptor to the runner at index `k % N`: that runner is replaced
by the result of `add_new_connection` on it, and this one call is appended to
the history. -/
theorem addConnection_round_robin {σ : Type} (R : RunnerT σ) (N : Nat) (me : Int)
    (p0 : RoundRobinPool σ) (fds : List Int) (k : Nat)
    (hN : 1 ≤ N) (hN2 : (N : Int) ≤ INT_MAX)
    (hnew : RoundRobinPool.new R (N : Int) me = Constructed.pool p0)
    (hlen : fds.length ≤ 2147483648) (hk : k < fds.length) :
    ∃ p q w, addConnections R p0 (fds.take k) = some p ∧
      p.round_robin = (k : Int) ∧
      p.workers[k % N]? = some w ∧
      addConnection R p (fds.get ⟨k, hk⟩) = some q ∧
      q.workers = p.workers.set (k % N) (R.add_new_connection (fds.get ⟨k, hk⟩) w) ∧
      q.calls = p.calls ++ [Call.add_new_connection (k % N) (fds.get ⟨k, hk⟩)] ∧
      addConnections R p0 (fds.take (k + 1)) = some q := by
  obtain ⟨hw0, ht0, hc0, _, _⟩ := new_pool_nat R N me p0 hnew
  have hkl : (fds.take k).length = k := by
    rw [List.length_take]
    omega
  obtain ⟨p, h1, h2, h3, h4, _, _⟩ :=
    addConnections_eq R N hN hN2 (fds.take k) p0 0 hw0 ht0 hc0 (by omega)
  have hk2 : (k : Int) ≤ INT_MAX := by
    unfold INT_MAX
    omega
  have hc : p.round_robin = (k : Int) := by
    rw [h2, hkl, Nat.zero_add]
    exact toInt32_of_range (by unfold INT_MIN; omega) hk2
  obtain ⟨w, hw, hadd⟩ :=
    addConnection_eq R p (fds.get ⟨k, hk⟩) N k hN hN2 h3 (by rw [h4, ht0]) hc hk2
  refine ⟨p, _, w, h1, hc, hw, hadd, rfl, rfl, ?_⟩
  have htake : fds.take (k + 1) = fds.take k ++ [fds.get ⟨k, hk⟩] := by
    rw [List.take_succ, List.getElem?_eq_getElem hk]
    rfl
  rw [htake, addConnections_append, h1]
  simp only [Option.some_bind, addConnections, hadd]

/-- C10 (frame of `addConnection`).  On a pool with `N ≥ 1` runners and as many
threads whose counter holds `c` with `0 ≤ c < 2^31 - 1`, one call
`addConnection(fd)` is defined; it makes exactly one call on a runner,
`add_new_connection(fd)` with the same `fd` on one runner `idx < N`, and no
`stop` or `join`; the counter grows by one; every other runner, every thread,
the thread count and `max_event_per_loop` are unchanged. -/
theorem addConnection_frame {σ : Type} (R : RunnerT σ) (p : RoundRobinPool σ)
    (fd : Int) (N : Nat) (hN : 1 ≤ N) (hN2 : (N : Int) ≤ INT_MAX)
    (hw : p.workers.length = N) (ht : p.threads.length = N)
    (hc0 : 0 ≤ p.round_robin) (hc1 : p.round_robin < INT_MAX) :
    ∃ q idx w, addConnection R p fd = some q ∧ idx < N ∧
      p.workers[idx]? = some w ∧
      q.calls = p.calls ++ [Call.add_new_connection idx fd] ∧
      q.workers = p.workers.set idx (R.add_new_connection fd w) ∧
      (∀ j, j ≠ idx → q.workers[j]? = p.workers[j]?) ∧
      q.workers.length = N ∧
      q.round_robin = p.round_robin + 1 ∧
      q.threads = p.threads ∧
      getThreadNum q = getThreadNum p ∧
      q.max_event_per_loop = p.max_event_per_loop := by
  obtain ⟨c, hc⟩ := Int.eq_ofNat_of_zero_le hc0
  have hc2 : (c : Int) ≤ INT_MAX := by
    rw [← hc]
    exact le_of_lt hc1
  obtain ⟨w, hw1, hadd⟩ := addConnection_eq R p fd N c hN hN2 hw ht hc hc2
  refine ⟨_, c % N, w, hadd, Nat.mod_lt _ hN, hw1, rfl, rfl, ?_, ?_, ?_, rfl, rfl, rfl⟩
  · intro j hj
    exact List.getElem?_set_ne (Ne.symm hj)
  · simpa using hw
  · show toInt32 ((c : Int) + 1) = p.round_robin + 1
    rw [hc]
    apply toInt32_of_range
    · unfold INT_MIN
      omega
    · rw [hc] at hc1
      unfold INT_MAX at hc1 ⊢
      omega

/-! ## Counting what each runner receives -/

theorem received_append (i : Nat) (xs ys : List Call) :
    received i (xs ++ ys) = received i xs + received i ys := by
  simp [received, List.countP_append]

theorem delivered_append (xs ys : List Call) :
    delivered (xs ++ ys) = delivered xs + delivered ys := by
  simp [delivered, List.countP_append]

theorem delivered_routed (n : Nat) :
    ∀ (fds : List Int) (c : Nat), delivered (routed n c fds) = fds.length := by
  intro fds
  induction fds with
  | nil =>
    intro c
    rfl
  | cons fd fds ih =>
    intro c
    have h := ih (c + 1)
    simp only [delivered] at h
    simp [routed, delivered, List.countP_cons, h]

theorem received_routed (n i : Nat) :
    ∀ (fds : List Int) (c : Nat), received i (routed n c fds) = slots n i c fds.length := by
  intro fds
  induction fds with
  | nil =>
    intro c
    rfl
  | cons fd fds ih =>
    intro c
    have h := ih (c + 1)
    simp only [received] at h
    simp only [routed, received, List.countP_cons, List.length_cons, slots, h]
    by_cases hci : c % n = i
    · simp [hci]
      omega
    · simp [hci]

theorem slots_snoc (n i : Nat) :
    ∀ (len c : Nat),
      slots n i c (len + 1) = slots n i c len + (if (c + len) % n = i then 1 else 0) := by
  intro len
  induction len with
  | zero =>
    intro c
    simp [slots]
  | succ len ih =>
    intro c
    rw [slots, ih (c + 1), slots]
    have : c + 1 + len = c + (len + 1) := by omega
    rw [this]
    omega

theorem dvd_add_sub_iff (n i len : Nat) (hi : i < n) :
    n ∣ len + (n - i) ↔ len % n = i := by
  have hn : 0 < n := by omega
  have hr : len % n < n := Nat.mod_lt _ hn
  rw [Nat.dvd_iff_mod_eq_zero, Nat.add_mod]
  have hni : (n - i) % n = if i = 0 then 0 else n - i := by
    split
    · next h0 =>
      subst h0
      simp
    · exact Nat.mod_eq_of_lt (by omega)
  rw [hni]
  generalize len % n = r at hr ⊢
  by_cases h0 : i = 0
  · subst h0
    simp [Nat.mod_eq_of_lt hr]
  · rw [if_neg h0]
    by_cases hlt : r < i
    · rw [Nat.mod_eq_of_lt (by omega)]
      omega
    · rw [Nat.mod_eq_sub_mod (by omega), Nat.mod_eq_of_lt (by omega)]
      omega

/-- Closed form of `slots` from sequence number 0. -/
theorem slots_zero (n i : Nat) (hi : i < n) :
    ∀ len : Nat, slots n i 0 len = (len + n - 1 - i) / n := by
  intro len
  induction len with
  | zero =>
    rw [slots]
    symm
    apply Nat.div_eq_of_lt
    omega
  | succ len ih =>
    rw [slots_snoc, ih, Nat.zero_add]
    have e1 : len + 1 + n - 1 - i = (len + n - 1 - i) + 1 := by omega
    have e2 : len + n - 1 - i + 1 = len + (n - i) := by omega
    rw [e1, Nat.succ_div, e2]
    congr 1
    by_cases h : len % n = i
    · rw [if_pos h, if_pos ((dvd_add_sub_iff n i len hi).2 h)]
    · rw [if_neg h, if_neg (fun hd => h ((dvd_add_sub_iff n i len hi).1 hd))]

/-- C2 (uniform distribution).  After `n < 2^31` calls of `addConnection` on a
pool constructed with `N ≥ 1` threads, runner `i` has received exactly
`(n + N - 1 - i) / N` connections; two runners' counts differ by at most one;
when `n = m * N` every runner has received exactly `m`; and the number of
connections handed to runners is `n`, none dropped and none duplicated. -/
theorem addConnection_uniform {σ : Type} (R : RunnerT σ) (N : Nat) (me : Int)
    (p0 : RoundRobinPool σ) (fds : List Int)
    (hN : 1 ≤ N) (hN2 : (N : Int) ≤ INT_MAX)
    (hnew : RoundRobinPool.new R (N : Int) me = Constructed.pool p0)
    (hlen : fds.length < 2147483648) :
    ∃ q, addConnections R p0 fds = some q ∧
      (∀ i, i < N → received i q.calls = (fds.length + N - 1 - i) / N) ∧
      (∀ i j, i < N → j < N → received i q.calls ≤ received j q.calls + 1) ∧
      (∀ m, fds.length = m * N → ∀ i, i < N → received i q.calls = m) ∧
      delivered q.calls = fds.length := by
  obtain ⟨hw0, ht0, hc0, hr0, hd0⟩ := new_pool_nat R N me p0 hnew
  obtain ⟨q, h1, _, _, _, _, h6⟩ :=
    addConnections_eq R N hN hN2 fds p0 0 hw0 ht0 hc0 (by omega)
  have hrec : ∀ i, i < N → received i q.calls = (fds.length + N - 1 - i) / N := by
    intro i hi
    rw [h6, received_append, hr0, received_routed, slots_zero N i hi, Nat.zero_add]
  have hlo : ∀ i, i < N → fds.length / N ≤ received i q.calls := by
    intro i hi
    rw [hrec i hi]
    exact Nat.div_le_div_right (by omega)
  have hhi : ∀ i, i < N → received i q.calls ≤ fds.length / N + 1 := by
    intro i hi
    rw [hrec i hi, ← Nat.add_div_right _ hN]
    exact Nat.div_le_div_right (by omega)
  refine ⟨q, h1, hrec, ?_, ?_, ?_⟩
  · intro i j hi hj
    have := hhi i hi
    have := hlo j hj
    omega
  · intro m hm i hi
    rw [hrec i hi, hm]
    have e : m * N + N - 1 - i = (N - 1 - i) + N * m := by
      rw [Nat.mul_comm]
      omega
    rw [e, Nat.add_mul_div_left _ _ hN, Nat.div_eq_of_lt (by omega), Nat.zero_add]
  · rw [h6, delivered_append, hd0, delivered_routed, Nat.zero_add]

/-! ## `stopAll` -/

theorem stopEach_eq {σ : Type} (R : RunnerT σ) :
    ∀ (ws : List σ) (i : Nat),
      stopEach R i ws = (ws.map R.stop, (List.range' i ws.length).map Call.stop) := by
  intro ws
  induction ws with
  | nil =>
    intro i
    rfl
  | cons w ws ih =>
    intro i
    simp [stopEach, ih (i + 1), List.range'_succ]

/-- The state after `stopAll`. -/
theorem stopAll_eq {σ : Type} (R : RunnerT σ) (p : RoundRobinPool σ) :
    stopAll R p =
      { p with
        workers := p.workers.map R.stop
        calls := p.calls ++ (List.range p.workers.length).map Call.stop } := by
  simp [stopAll, stopEach_eq, List.range_eq_range']

/-- C4 (`stopAll` broadcast).  One call of `stopAll` calls `stop()` on the runners
at indices `0, 1, ..., N-1`, in this order, each once, and makes no other call:
every runner is replaced by the result of `stop` on it, the history grows by
exactly the `N` calls `stop 0, ..., stop (N-1)`, and the threads, the counter
and `max_event_per_loop` are unchanged. -/
theorem stopAll_broadcast {σ : Type} (R : RunnerT σ) (p : RoundRobinPool σ) :
    (stopAll R p).workers = p.workers.map R.stop ∧
    (stopAll R p).calls = p.calls ++ (List.range p.workers.length).map Call.stop ∧
    (∀ i, i < p.workers.length →
      (((stopAll R p).calls.drop p.calls.length).count (Call.stop i) = 1 ∧
       ((stopAll R p).calls.drop p.calls.length)[i]? = some (Call.stop i))) ∧
    ((stopAll R p).calls.drop p.calls.length).length = p.workers.length ∧
    (stopAll R p).threads = p.threads ∧
    (stopAll R p).round_robin = p.round_robin ∧
    (stopAll R p).max_event_per_loop = p.max_event_per_loop := by
  rw [stopAll_eq]
  have hd : (p.calls ++ (List.range p.workers.length).map Call.stop).drop p.calls.length =
      (List.range p.workers.length).map Call.stop := by
    simp
  refine ⟨rfl, rfl, ?_, ?_, rfl, rfl, rfl⟩
  · intro i hi
    dsimp only
    rw [hd]
    constructor
    · rw [List.count_eq_countP, List.countP_map]
      have : (List.range p.workers.length).countP ((fun x => x == Call.stop i) ∘ Call.stop)
          = (List.range p.workers.length).count i := by
        rw [List.count_eq_countP]
        congr 1
        funext x
        simp [eq_comm]
      rw [this]
      exact List.count_eq_one_of_mem (List.nodup_range _) (List.mem_range.2 hi)
    · simp [hi]
  · dsimp only
    rw [hd]
    simp

/-! ## `join` -/

theorem joinEach_some {σ : Type} (R : RunnerT σ) (ws : List σ) :
    ∀ (ts : List Thread) (i : Nat) (r : List Thread × List Call),
      joinEach R ws i ts = some r →
        r.1.length = ts.length ∧ ∀ t, t ∈ r.1 → t = Thread.joined := by
  intro ts
  induction ts with
  | nil =>
    intro i r h
    simp only [joinEach, Option.some.injEq] at h
    subst h
    simp
  | cons t ts ih =>
    intro i r h
    simp only [joinEach] at h
    split at h
    · split at h
      · cases hrec : joinEach R ws (i + 1) ts with
        | none =>
          rw [hrec] at h
          cases h
        | some rest =>
          rw [hrec] at h
          simp only [Option.map_some', Option.some.injEq] at h
          subst h
          obtain ⟨h1, h2⟩ := ih _ _ hrec
          refine ⟨by simp [h1], ?_⟩
          intro t' ht'
          rcases List.mem_cons.1 ht' with h3 | h3
          · exact h3
          · exact h2 _ h3
      · cases h
    · next hj =>
      cases hrec : joinEach R ws (i + 1) ts with
      | none =>
        rw [hrec] at h
        cases h
      | some rest =>
        rw [hrec] at h
        simp only [Option.map_some', Option.some.injEq] at h
        subst h
        obtain ⟨h1, h2⟩ := ih _ _ hrec
        refine ⟨by simp [h1], ?_⟩
        intro t' ht'
        rcases List.mem_cons.1 ht' with h3 | h3
        · subst h3
          cases t' <;> simp [Thread.joinable] at hj ⊢
        · exact h2 _ h3

theorem joinEach_joined {σ : Type} (R : RunnerT σ) (ws : List σ) :
    ∀ (ts : List Thread) (i : Nat), (∀ t, t ∈ ts → t = Thread.joined) →
      joinEach R ws i ts = some (ts, []) := by
  intro ts
  induction ts with
  | nil =>
    intro i _
    rfl
  | cons t ts ih =>
    intro i h
    have ht : t = Thread.joined := h t (List.mem_cons_self _ _)
    subst ht
    have hrest := ih (i + 1) (fun t ht => h t (List.mem_cons_of_mem _ ht))
    simp [joinEach, Thread.joinable, hrest]

/-- What `join` leaves when it returns. -/
theorem join_some {σ : Type} (R : RunnerT σ) (p q : RoundRobinPool σ)
    (h : join R p = some q) :
    (∀ t, t ∈ q.threads → t = Thread.joined) ∧
    q.threads.length = p.threads.length ∧
    q.workers = p.workers ∧ q.round_robin = p.round_robin := by
  unfold join at h
  cases hrec : joinEach R p.workers 0 p.threads with
  | none =>
    rw [hrec] at h
    cases h
  | some r =>
    rw [hrec] at h
    simp only [Option.map_some', Option.some.injEq] at h
    obtain ⟨h1, h2⟩ := joinEach_some R _ _ _ _ hrec
    subst h
    exact ⟨h2, h1, rfl, rfl⟩

/-- C5 (`join` is complete and repeatable).  When `join` returns, every thread is
in the state `joined` (terminated, no longer joinable), and the number of
threads, the runners and the counter are as before; a second `join` on that
state returns and changes nothing; so `join` twice is the same as `join`
once. -/
theorem join_complete_repeatable {σ : Type} (R : RunnerT σ)
    (p q : RoundRobinPool σ) (h : join R p = some q) :
    (∀ t, t ∈ q.threads → t = Thread.joined ∧ t.joinable = false) ∧
    q.threads.length = p.threads.length ∧
    q.workers = p.workers ∧
    q.round_robin = p.round_robin ∧
    join R q = some q ∧
    (join R p).bind (join R) = join R p := by
  obtain ⟨h1, h2, h3, h4⟩ := join_some R p q h
  have hjq : join R q = some q := by
    unfold join
    rw [joinEach_joined R q.workers q.threads 0 h1]
    simp
  refine ⟨?_, h2, h3, h4, hjq, ?_⟩
  · intro t ht
    have := h1 t ht
    subst this
    exact ⟨rfl, rfl⟩
  · rw [h]
    exact hjq

/-! ## Sizes never change -/

theorem addConnection_sizes {σ : Type} (R : RunnerT σ) (p q : RoundRobinPool σ)
    (fd : Int) (h : addConnection R p fd = some q) :
    q.workers.length = p.workers.length ∧ q.threads = p.threads := by
  unfold addConnection at h
  dsimp only at h
  split at h
  · cases h
  · split at h
    · cases h
    · simp only [Option.some.injEq] at h
      subst h
      simp

/-- C6 (fixed size).  In the state a construction with `N ≥ 1` threads returns,
and in every state reached from it by calls of `addConnection`, `stopAll` and
`join`, the vectors `workers` and `threads` both have `N` elements and
`getThreadNum()` is `N`. -/
theorem fixed_size {σ : Type} (R : RunnerT σ) (N : Nat) (me : Int)
    (p0 p : RoundRobinPool σ) (hN : 1 ≤ N) (hN2 : (N : Int) ≤ INT_MAX)
    (hnew : RoundRobinPool.new R (N : Int) me = Constructed.pool p0)
    (hr : Reachable R p0 p) :
    p.workers.length = N ∧ p.threads.length = N ∧ getThreadNum p = (N : Int) := by
  obtain ⟨hw0, ht0, _⟩ := new_pool_nat R N me p0 hnew
  have hsz : p.workers.length = N ∧ p.threads.length = N := by
    induction hr with
    | init => exact ⟨hw0, ht0⟩
    | addConnection fd _ hadd ih =>
      obtain ⟨h1, h2⟩ := addConnection_sizes R _ _ fd hadd
      exact ⟨by rw [h1]; exact ih.1, by rw [h2]; exact ih.2⟩
    | stopAll _ ih =>
      rw [stopAll_eq]
      exact ⟨by rw [List.length_map]; exact ih.1, ih.2⟩
    | join _ hj ih =>
      obtain ⟨_, h2, h1, _⟩ := join_some R _ _ hj
      exact ⟨by rw [h1]; exact ih.1, by rw [h2]; exact ih.2⟩
  refine ⟨hsz.1, hsz.2, ?_⟩
  unfold getThreadNum
  rw [hsz.2]
  exact toInt32_of_range (by unfold INT_MIN; omega) hN2

/-! ## Construction with a bad thread count or a failing runner -/

/-- C3, as the code behaves.  For a negative `thread_num` the constructor fails in
`reserve` with `std::length_error`, before any runner is built or thread
started.  For `thread_num = 0` it does not fail: it returns a pool with no
runner and no thread, having built and started nothing. -/
theorem new_nonpositive {σ : Type} (R : RunnerT σ) (thread_num me : Int)
    (h1 : INT_MIN ≤ thread_num) (h2 : thread_num ≤ 0) :
    RoundRobinPool.new R thread_num me =
      if thread_num < 0 then Constructed.length_error
      else Constructed.pool
        { threads := [], workers := [], round_robin := 0,
          max_event_per_loop := me, calls := [] } := by
  unfold INT_MIN at h1
  unfold RoundRobinPool.new
  by_cases hneg : thread_num < 0
  · have hbig : vectorMaxSize < toSizeT thread_num := by
      unfold vectorMaxSize toSizeT
      omega
    rw [if_pos hbig, if_pos hneg]
  · have h0 : thread_num = 0 := by omega
    subst h0
    have hsmall : ¬ vectorMaxSize < toSizeT 0 := by decide
    rw [if_neg hsmall, if_neg hneg]
    rfl

theorem constructLoop_fails {σ : Type} (R : RunnerT σ) (me : Int) (i : Nat)
    (hfail : R.make me i = none) :
    ∀ (n i0 : Nat) (p : RoundRobinPool σ), i0 ≤ i → i < i0 + n →
      (∀ j, i0 ≤ j → j < i → (R.make me j).isSome = true) →
      p.max_event_per_loop = me →
      p.threads = List.replicate i0 Thread.running → p.workers.length = i0 →
      (∀ c, c ∈ p.calls → ∃ j, j < i0 ∧ (c = Call.construct j ∨ c = Call.spawn j)) →
      ∃ q, constructLoop R n i0 p =
          (if i = 0 then Constructed.runner_error 0 q else Constructed.terminated i q) ∧
        q.threads = List.replicate i Thread.running ∧ q.workers.length = i ∧
        (∀ c, c ∈ q.calls → ∃ j, j < i ∧ (c = Call.construct j ∨ c = Call.spawn j)) := by
  intro n
  induction n with
  | zero =>
    intro i0 p h1 h2
    omega
  | succ n ih =>
    intro i0 p h1 h2 hok hme ht hw hcalls
    by_cases hi : i0 = i
    · subst hi
      refine ⟨p, ?_, ht, hw, hcalls⟩
      simp only [constructLoop, hme, hfail]
      by_cases h0 : i0 = 0
      · subst h0
        simp [ht]
      · obtain ⟨k, rfl⟩ := Nat.exists_eq_succ_of_ne_zero h0
        simp [ht, List.replicate_succ, Thread.joinable]
    · have hsome := hok i0 (le_refl _) (by omega)
      obtain ⟨r, hr⟩ := Option.isSome_iff_exists.1 hsome
      simp only [constructLoop, hme, hr]
      apply ih (i0 + 1) _ (by omega) (by omega)
      · intro j hj1 hj2
        exact hok j (by omega) hj2
      · rfl
      · simp [ht, List.replicate_succ']
      · simp [hw]
      · intro c hc
        simp only [List.mem_append, List.mem_cons, List.mem_singleton,
          List.not_mem_nil, or_false] at hc
        rcases hc with hc | hc | hc
        · obtain ⟨j, hj, hcj⟩ := hcalls c hc
          exact ⟨j, by omega, hcj⟩
        · exact ⟨i0, by omega, Or.inl hc⟩
        · exact ⟨i0, by omega, Or.inr hc⟩

/-- C8, as the code behaves.  Let the constructor of runner `i < N` throw after
runners `0..i-1` were built.  The pool constructor then never returns a pool
and calls neither `stop()` nor `join()`: all it has done is build runners
`0..i-1` and start their threads, which are still running.  For `i = 0` no
thread exists and the exception leaves the constructor; for `i ≥ 1` destroying
the still joinable threads ends the program through `std::terminate`. -/
theorem new_runner_failure {σ : Type} (R : RunnerT σ) (N : Nat) (me : Int) (i : Nat)
    (hN : 1 ≤ N) (hN2 : (N : Int) ≤ INT_MAX) (hi : i < N)
    (hok : ∀ j, j < i → (R.make me j).isSome = true)
    (hfail : R.make me i = none) :
    ∃ q, RoundRobinPool.new R (N : Int) me =
        (if i = 0 then Constructed.runner_error 0 q else Constructed.terminated i q) ∧
      q.threads = List.replicate i Thread.running ∧ q.workers.length = i ∧
      (∀ c, c ∈ q.calls → ∃ j, j < i ∧ (c = Call.construct j ∨ c = Call.spawn j)) := by
  have hsmall : ¬ vectorMaxSize < toSizeT (N : Int) := by
    unfold INT_MAX at hN2
    unfold vectorMaxSize toSizeT
    omega
  unfold RoundRobinPool.new
  rw [if_neg hsmall, Int.toNat_ofNat]
  apply constructLoop_fails R me i hfail N 0 _ (Nat.zero_le _) (by omega)
  · intro j _ hj
    exact hok j hj
  · rfl
  · rfl
  · rfl
  · intro c hc
    cases hc

/-! ## Concrete runs -/

/-- C1 on the scenario of three runners and the descriptors 10, 11, 12, 13: the
fourth call (number 3) goes to runner 0, and the four calls go to runners
0, 1, 2, 0. -/
theorem addConnection_round_robin_witness :
    (1 ≤ 3 ∧ ((3 : Nat) : Int) ≤ INT_MAX ∧
      RoundRobinPool.new okRunner ((3 : Nat) : Int) 64 = Constructed.pool (freshPool 3) ∧
      [(10 : Int), 11, 12, 13].length ≤ 2147483648) ∧
    (∃ p q w, addConnections okRunner (freshPool 3) ([(10 : Int), 11, 12, 13].take 3) = some p ∧
      p.round_robin = ((3 : Nat) : Int) ∧
      p.workers[3 % 3]? = some w ∧
      addConnection okRunner p 13 = some q ∧
      q.workers = p.workers.set (3 % 3) (okRunner.add_new_connection 13 w) ∧
      q.calls = p.calls ++ [Call.add_new_connection (3 % 3) 13] ∧
      addConnections okRunner (freshPool 3) ([(10 : Int), 11, 12, 13].take (3 + 1)) = some q) ∧
    (addConnections okRunner (freshPool 3) [10, 11, 12, 13]).map
        (fun q => q.calls.drop 6) =
      some [Call.add_new_connection 0 10, Call.add_new_connection 1 11,
        Call.add_new_connection 2 12, Call.add_new_connection 0 13] :=
  ⟨⟨by decide, by decide, by decide, by decide⟩,
    addConnection_round_robin okRunner 3 64 (freshPool 3) [10, 11, 12, 13] 3
      (by decide) (by decide) (by decide) (by decide) (by decide),
    by decide⟩

/-- C2 on four runners and 8000 calls: each runner receives exactly 2000. -/
theorem addConnection_uniform_witness :
    (1 ≤ 4 ∧ ((4 : Nat) : Int) ≤ INT_MAX ∧
      RoundRobinPool.new okRunner ((4 : Nat) : Int) 64 = Constructed.pool (freshPool 4) ∧
      (List.replicate 8000 (7 : Int)).length < 2147483648) ∧
    ∃ q, addConnections okRunner (freshPool 4) (List.replicate 8000 7) = some q ∧
      received 0 q.calls = 2000 ∧ received 1 q.calls = 2000 ∧
      received 2 q.calls = 2000 ∧ received 3 q.calls = 2000 ∧
      delivered q.calls = 8000 := by
  have hlen : (List.replicate 8000 (7 : Int)).length = 8000 := List.length_replicate _ _
  obtain ⟨q, h1, _, _, h4, h5⟩ :=
    addConnection_uniform okRunner 4 64 (freshPool 4) (List.replicate 8000 7)
      (by decide) (by decide) (by decide) (by rw [hlen]; decide)
  rw [hlen] at h4 h5
  exact ⟨⟨by decide, by decide, by decide, by rw [hlen]; decide⟩, q, h1,
    h4 2000 (by decide) 0 (by decide), h4 2000 (by decide) 1 (by decide),
    h4 2000 (by decide) 2 (by decide), h4 2000 (by decide) 3 (by decide), h5⟩

/-- C10 on the first call `addConnection(10)` of a pool of three runners. -/
theorem addConnection_frame_witness :
    (1 ≤ 3 ∧ ((3 : Nat) : Int) ≤ INT_MAX ∧ (freshPool 3).workers.length = 3 ∧
      (freshPool 3).threads.length = 3 ∧ 0 ≤ (freshPool 3).round_robin ∧
      (freshPool 3).round_robin < INT_MAX) ∧
    ∃ q idx w, addConnection okRunner (freshPool 3) 10 = some q ∧ idx < 3 ∧
      (freshPool 3).workers[idx]? = some w ∧
      q.calls = (freshPool 3).calls ++ [Call.add_new_connection idx 10] ∧
      q.workers = (freshPool 3).workers.set idx (okRunner.add_new_connection 10 w) ∧
      (∀ j, j ≠ idx → q.workers[j]? = (freshPool 3).workers[j]?) ∧
      q.workers.length = 3 ∧
      q.round_robin = (freshPool 3).round_robin + 1 ∧
      q.threads = (freshPool 3).threads ∧
      getThreadNum q = getThreadNum (freshPool 3) ∧
      q.max_event_per_loop = (freshPool 3).max_event_per_loop :=
  ⟨⟨by decide, by decide, by decide, by decide, by decide, by decide⟩,
    addConnection_frame okRunner (freshPool 3) 10 3
      (by decide) (by decide) (by decide) (by decide) (by decide) (by decide)⟩

/-- C5 on three stopped runners with one running, one finished and one joined
thread: `join` joins the first two and skips the third. -/
theorem join_complete_repeatable_witness :
    join okRunner stoppedPool =
        some { stoppedPool with
               threads := [Thread.joined, Thread.joined, Thread.joined]
               calls := [Call.join 0, Call.join 1] } ∧
    ∃ q, join okRunner stoppedPool = some q ∧
      (∀ t, t ∈ q.threads → t = Thread.joined ∧ t.joinable = false) ∧
      q.threads.length = stoppedPool.threads.length ∧
      q.workers = stoppedPool.workers ∧
      q.round_robin = stoppedPool.round_robin ∧
      join okRunner q = some q ∧
      (join okRunner stoppedPool).bind (join okRunner) = join okRunner stoppedPool :=
  ⟨by decide, _, by decide,
    join_complete_repeatable okRunner stoppedPool
      { stoppedPool with
        threads := [Thread.joined, Thread.joined, Thread.joined]
        calls := [Call.join 0, Call.join 1] } (by decide)⟩

/-- C6 on a pool of four runners after `stopAll`. -/
theorem fixed_size_witness :
    (1 ≤ 4 ∧ ((4 : Nat) : Int) ≤ INT_MAX ∧
      RoundRobinPool.new okRunner ((4 : Nat) : Int) 64 = Constructed.pool (freshPool 4) ∧
      Reachable okRunner (freshPool 4) (stopAll okRunner (freshPool 4))) ∧
    (stopAll okRunner (freshPool 4)).workers.length = 4 ∧
    (stopAll okRunner (freshPool 4)).threads.length = 4 ∧
    getThreadNum (stopAll okRunner (freshPool 4)) = ((4 : Nat) : Int) :=
  ⟨⟨by decide, by decide, by decide, Reachable.stopAll Reachable.init⟩,
    fixed_size okRunner 4 64 (freshPool 4) (stopAll okRunner (freshPool 4))
      (by decide) (by decide) (by decide) (Reachable.stopAll Reachable.init)⟩

/-- C3 (counterexample).  Construction with `thread_num = 0` does not fail: it
returns a pool with no runner and no thread, whose thread count is 0 and on
which `addConnection` divides by zero. -/
theorem new_zero_returns_empty_pool :
    RoundRobinPool.new okRunner 0 64 = Constructed.pool (freshPool 0) ∧
    (freshPool 0).workers = [] ∧ (freshPool 0).threads = [] ∧
    getThreadNum (freshPool 0) = 0 ∧
    addConnection okRunner (freshPool 0) 10 = none := by
  decide

/-- C3 as amended, on `thread_num = -1`: the constructor throws
`std::length_error`. -/
theorem new_nonpositive_witness :
    (INT_MIN ≤ -1 ∧ (-1 : Int) ≤ 0) ∧
    RoundRobinPool.new okRunner (-1) 64 =
      if (-1 : Int) < 0 then Constructed.length_error
      else Constructed.pool
        { threads := [], workers := [], round_robin := 0,
          max_event_per_loop := 64, calls := [] } :=
  ⟨⟨by decide, by decide⟩, new_nonpositive okRunner (-1) 64 (by decide) (by decide)⟩

/-- C8 (counterexample).  With two threads asked for and the second runner's
constructor throwing, the constructor does not hand the failure to its caller.
Thread 0 is running and joinable, no `stop()` and no `join()` has been
called, and the program ends through `std::terminate`. -/
theorem new_second_runner_fails :
    RoundRobinPool.new secondFails 2 64 =
      Constructed.terminated 1
        { threads := [Thread.running]
          workers := [⟨64, [], 0⟩]
          round_robin := 0
          max_event_per_loop := 64
          calls := [Call.construct 0, Call.spawn 0] } := by
  decide

/-- C8 as amended, on two threads asked for and the second runner failing. -/
theorem new_runner_failure_witness :
    (1 ≤ 2 ∧ ((2 : Nat) : Int) ≤ INT_MAX ∧ 1 < 2 ∧
      (∀ j, j < 1 → (secondFails.make 64 j).isSome = true) ∧
      secondFails.make 64 1 = none) ∧
    ∃ q, RoundRobinPool.new secondFails ((2 : Nat) : Int) 64 =
        (if 1 = 0 then Constructed.runner_error 0 q else Constructed.terminated 1 q) ∧
      q.threads = List.replicate 1 Thread.running ∧ q.workers.length = 1 ∧
      (∀ c, c ∈ q.calls → ∃ j, j < 1 ∧ (c = Call.construct j ∨ c = Call.spawn j)) :=
  ⟨⟨by decide, by decide, by decide, by decide, by decide⟩,
    new_runner_failure secondFails 2 64 1
      (by decide) (by decide) (by decide) (by decide) (by decide)⟩

/-- C7, the code at the failing input.  After `2^31` calls of `addConnection` on
a pool of three runners the counter has wrapped to `INT_MIN`; there
`cnt % getThreadNum()` is `-2`, which is no index of `workers`, and the next
call of `addConnection` is undefined. -/
theorem addConnection_after_wrap :
    (∃ q, addConnections okRunner (freshPool 3) (List.replicate 2147483648 10) = some q ∧
      q.round_robin = INT_MIN ∧ q.workers.length = 3 ∧
      getThreadNum q = 3 ∧
      intRem q.round_robin (getThreadNum q) = some (-2) ∧
      addConnection okRunner q 10 = none) ∧
    intRem wrappedPool.round_robin (getThreadNum wrappedPool) = some (-2) ∧
    wrappedPool.workers[toSizeT (-2)]? = none ∧
    addConnection okRunner wrappedPool 10 = none := by
  refine ⟨?_, by decide, by decide, by decide⟩
  have hlen : (List.replicate 2147483648 (10 : Int)).length = 2147483648 :=
    List.length_replicate _ _
  obtain ⟨q, h1, h2, h3, h4, _, _⟩ :=
    addConnections_eq okRunner 3 (by decide) (by decide)
      (List.replicate 2147483648 10) (freshPool 3) 0 (by decide) (by decide) (by decide)
      (by rw [hlen])
  rw [hlen] at h2
  have hc : q.round_robin = INT_MIN := by
    rw [h2]
    decide
  have hg : getThreadNum q = 3 := by
    unfold getThreadNum
    rw [h4]
    decide
  have hrem : intRem q.round_robin (getThreadNum q) = some (-2) := by
    rw [hc, hg]
    decide
  have hidx : q.workers[toSizeT (-2)]? = none := by
    apply List.getElem?_eq_none
    rw [h3]
    decide
  refine ⟨q, h1, hc, h3, hg, hrem, ?_⟩
  unfold addConnection
  dsimp only
  rewrite [hrem]
  dsimp only
  rewrite [hidx]
  rfl

end detail
end c10k
